import Mathlib

/-!
Verification of the Enhanced MCP 2.0 trust-and-resilience pipeline
(`SecurityFramework`, `EnhancedErrorHandler`, `CollaborationManager`).

The TypeScript classes are shallowly embedded: the mutable fields of each
class become explicit state records threaded through the functions, JS
`Map`s become association lists with JS `Map.set`/`Map.get` semantics,
thrown exceptions become `Except` results, and external collaborators
(the cryptographic verifier, the distributed lock service) become
function parameters.
-/

namespace MCP2

/-! ## Association lists: the embedding of JS `Map` -/

/-- Association-list lookup with first-match semantics, the embedding of
JS `Map.get` for the registries kept as `Map` in the source. -/
def lookupKey {κ α : Type} [DecidableEq κ] (l : List (κ × α)) (k : κ) : Option α :=
  match l with
  | [] => none
  | e :: rest => if e.1 = k then some e.2 else lookupKey rest k

/-- Embedding of JS `Map.set`: replace the binding in place when the key is
present, otherwise append a new binding. -/
def mapSet {κ α : Type} [DecidableEq κ] (l : List (κ × α)) (k : κ) (v : α) : List (κ × α) :=
  match l with
  | [] => [(k, v)]
  | e :: rest => if e.1 = k then (k, v) :: rest else e :: mapSet rest k v

/-! ## SecurityFramework: authentication -/

/-- The action kinds of the `Action` interface. -/
inductive ActionType
  | read
  | write
  | execute
  | delete
  deriving DecidableEq, Repr

/-- The `Action` interface: `{type: 'read' | 'write' | 'execute' | 'delete'}`. -/
structure Action where
  type : ActionType
  deriving DecidableEq, Repr

/-- The `Permission` interface: `{resource, actions, auditRequired}`. -/
structure Permission where
  resource : String
  actions : List Action
  auditRequired : Bool
  deriving DecidableEq, Repr

/-- The risk levels of `AuthenticationResult.riskLevel`. -/
inductive RiskLevel
  | low
  | medium
  | high
  | critical
  deriving DecidableEq, Repr

/-- The `AuthenticationResult` interface. -/
structure AuthenticationResult where
  authenticated : Bool
  permissions : List String
  riskLevel : RiskLevel
  requiresAudit : Bool
  deriving DecidableEq, Repr

/-- The `CryptographicSignature` extension field of an enhanced message. -/
structure CryptographicSignature where
  algorithm : String
  publicKey : String
  signature : String
  deriving DecidableEq, Repr

/-- The `OperationContext` extension field; only `userId` is consulted by
`authenticateRequest`. -/
structure OperationContext where
  userId : Option String
  deriving DecidableEq, Repr

/-- An `EnhancedMessage`: the fields of the request that `SecurityFramework`
reads. `signature` and `context` are the optional MCP 2.0 extensions. -/
structure EnhancedMessage where
  method : Option String
  signature : Option CryptographicSignature
  context : Option OperationContext
  deriving DecidableEq, Repr

/-- An entry of the append-only `auditLog`: `{timestamp, event, details}`. -/
structure AuditEntry where
  timestamp : String
  event : String
  details : String
  deriving DecidableEq, Repr

/-- The mutable fields of `SecurityFramework` that authentication touches:
the principal → permissions map and the append-only audit log. -/
structure SecurityState where
  permissions : List (String × List Permission)
  auditLog : List AuditEntry
  deriving DecidableEq, Repr

/-- Modelled from the spec: `getPermissions` is called by `authenticateRequest`
but has no definition in the source file; the spec describes the
PermissionStore as a pure principal → permission-set lookup. A request with no
principal, or an unknown principal, resolves to no permissions. -/
def getPermissions (st : SecurityState) (userId : Option String) : List Permission :=
  match userId with
  | none => []
  | some uid => (lookupKey st.permissions uid).getD []

/-- `SecurityFramework.calculateRiskLevel`: `critical` when some permission has
an `execute` action, else `high` when some permission has a `write` or `delete`
action, else `medium`. -/
def calculateRiskLevel (permissions : List Permission) : RiskLevel :=
  let hasWriteAccess := permissions.any fun p =>
    p.actions.any fun a => a.type == ActionType.write || a.type == ActionType.delete
  let hasExecuteAccess := permissions.any fun p =>
    p.actions.any fun a => a.type == ActionType.execute
  if hasExecuteAccess then RiskLevel.critical
  else if hasWriteAccess then RiskLevel.high
  else RiskLevel.medium

/-- `SecurityFramework.authenticateRequest`. The external signature verifier
(`verifySignature`, which delegates to the crypto library) is the parameter
`verify`; `now` stands for `new Date().toISOString()`. An unsigned message
returns the backwards-compatible degraded result; a signed message is
verified, and a failed verification throws `Invalid signature`, which the
`catch` block records in the audit log before re-throwing. -/
def authenticateRequest (verify : CryptographicSignature → EnhancedMessage → Bool)
    (st : SecurityState) (message : EnhancedMessage) (now : String) :
    Except String AuthenticationResult × SecurityState :=
  match message.signature with
  | none =>
      (Except.ok
        { authenticated := true
          permissions := ["read:public"]
          riskLevel := RiskLevel.medium
          requiresAudit := true }, st)
  | some signature =>
      if verify signature message then
        let permissions := getPermissions st (message.context.bind OperationContext.userId)
        (Except.ok
          { authenticated := true
            permissions := permissions.map Permission.resource
            riskLevel := calculateRiskLevel permissions
            requiresAudit := permissions.any Permission.auditRequired }, st)
      else
        (Except.error "Invalid signature",
         { st with auditLog := st.auditLog ++
             [{ timestamp := now
                event := "authentication_failed"
                details := "Invalid signature" }] })

/-- A permission list grants an action kind when some permission in it holds
an action of that kind. -/
def grantsAction (perms : List Permission) (t : ActionType) : Prop :=
  ∃ p ∈ perms, ∃ a ∈ p.actions, a.type = t

instance (perms : List Permission) (t : ActionType) : Decidable (grantsAction perms t) := by
  unfold grantsAction
  infer_instance

/-! ## SecurityFramework: sandbox registry -/

/-- The `SandboxConfiguration` interface (`resources` is opaque to the
registry logic and omitted). -/
structure SandboxConfiguration where
  id : String
  type : String
  deriving DecidableEq, Repr

/-- A registered `SandboxEnvironment`, created from its configuration. -/
structure SandboxEnvironment where
  config : SandboxConfiguration
  deriving DecidableEq, Repr

/-- `SecurityFramework.createSandbox`: builds the environment, initializes it
(external backend), and registers it under `config.id` with `Map.set`. The
source performs no duplicate-id check. -/
def createSandbox (sandboxes : List (String × SandboxEnvironment))
    (config : SandboxConfiguration) :
    Except String (String × List (String × SandboxEnvironment)) :=
  let sandbox : SandboxEnvironment := { config := config }
  Except.ok (config.id, mapSet sandboxes config.id sandbox)

/-- Modelled from the spec: `destroySandbox` is called on `securityFramework`
by the example workflow but has no definition in the source; the spec
specifies it as idempotent teardown — remove the sandbox registered under
`sandboxId`, where an unknown or already-destroyed id is a no-op, not an
error. -/
def destroySandbox (sandboxes : List (String × SandboxEnvironment)) (sandboxId : String) :
    Except String (List (String × SandboxEnvironment)) :=
  Except.ok (sandboxes.filter fun e => e.1 != sandboxId)

/-! ## EnhancedErrorHandler: retry with backoff -/

/-- Observable events of a retry run: an invocation of the wrapped operation
(with its attempt number, starting at 1) or a backoff sleep of `ms`
milliseconds. -/
inductive RetryEvent
  | call (attempt : Nat)
  | sleep (ms : Nat)
  deriving DecidableEq, Repr

/-- The fields of `RecoveryStrategy` that the error handler reads. `none`
stands for an absent (`undefined`) field. -/
structure RecoveryStrategy where
  type : String
  maxAttempts : Option Nat
  baseDelay : Option Nat
  backoffStrategy : String
  deriving DecidableEq, Repr

/-- JS `x || d` on an optional numeric field: both `undefined` and `0` are
falsy and fall back to the default. -/
def jsOrDefault (x : Option Nat) (d : Nat) : Nat :=
  match x with
  | none => d
  | some n => if n = 0 then d else n

/-- `EnhancedErrorHandler.calculateBackoffDelay`: exponential
`baseDelay * 2 ^ (attempt - 1)`, linear `baseDelay * attempt`, constant
`baseDelay` for every other strategy string. -/
def calculateBackoffDelay (attempt : Nat) (baseDelay : Nat) (strategy : String) : Nat :=
  if strategy = "exponential" then baseDelay * 2 ^ (attempt - 1)
  else if strategy = "linear" then baseDelay * attempt
  else baseDelay

/-- The `for` loop of `EnhancedErrorHandler.retryWithBackoff`, from a given
`attempt` counter. The wrapped operation is modelled by its outcome on each
invocation (`operation i` is the result of the i-th call); the returned
trace records calls and sleeps in order. A success returns `true`
immediately; a failure on the final attempt re-throws the caught error;
otherwise the loop sleeps for the computed backoff delay and continues. -/
def retryLoop {ε : Type} (operation : Nat → Except ε Unit) (baseDelay : Nat)
    (backoffStrategy : String) (maxAttempts attempt : Nat) :
    List RetryEvent × Except ε Bool :=
  if _h1 : maxAttempts < attempt then ([], Except.ok false)
  else
    match operation attempt with
    | Except.ok _ => ([RetryEvent.call attempt], Except.ok true)
    | Except.error e =>
      if h2 : attempt = maxAttempts then ([RetryEvent.call attempt], Except.error e)
      else
        let d := calculateBackoffDelay attempt baseDelay backoffStrategy
        let rest := retryLoop operation baseDelay backoffStrategy maxAttempts (attempt + 1)
        (RetryEvent.call attempt :: RetryEvent.sleep d :: rest.1, rest.2)
termination_by maxAttempts + 1 - attempt
decreasing_by omega

/-- `EnhancedErrorHandler.retryWithBackoff`: defaults `maxAttempts` to 3 and
`baseDelay` to 1000 with JS `||`, then runs the attempt loop from 1. -/
def retryWithBackoff {ε : Type} (operation : Nat → Except ε Unit)
    (strategy : RecoveryStrategy) : List RetryEvent × Except ε Bool :=
  let maxAttempts := jsOrDefault strategy.maxAttempts 3
  let baseDelay := jsOrDefault strategy.baseDelay 1000
  retryLoop operation baseDelay strategy.backoffStrategy maxAttempts 1

/-- `EnhancedErrorHandler.attemptRecovery`: dispatches on `strategy.type`.
The `fallback` and `rollback` branches call `executeFallback` and
`rollbackToCheckpoint`, which have no definition in the source; their
outcomes are the parameters `fallbackResult` and `rollbackResult`. Any
unrecognized strategy type returns `false` without error. -/
def attemptRecovery {ε : Type} (strategy : RecoveryStrategy)
    (operation : Nat → Except ε Unit)
    (fallbackResult rollbackResult : Except ε Bool) :
    List RetryEvent × Except ε Bool :=
  if strategy.type = "retry" then retryWithBackoff operation strategy
  else if strategy.type = "fallback" then ([], fallbackResult)
  else if strategy.type = "rollback" then ([], rollbackResult)
  else ([], Except.ok false)

/-- The attempt numbers of the operation invocations in a retry trace. -/
def callsOf : List RetryEvent → List Nat
  | [] => []
  | RetryEvent.call a :: rest => a :: callsOf rest
  | RetryEvent.sleep _ :: rest => callsOf rest

/-- The sleep durations in a retry trace, in order. -/
def sleepsOf : List RetryEvent → List Nat
  | [] => []
  | RetryEvent.call _ :: rest => sleepsOf rest
  | RetryEvent.sleep d :: rest => d :: sleepsOf rest

/-! ## EnhancedErrorHandler: checkpoints and deep copy

Mutation matters for the checkpoint claim, so JS values are embedded with an
explicit heap: a value is a primitive or a reference to a heap object, and
mutating the caller's state is writing to a heap address. `structuredClone`
copies every object to a fresh address range and renames the references
inside the copies, so the clone shares no address with the existing heap. -/

/-- A JS primitive value. -/
inductive JSPrim
  | str (s : String)
  | num (n : Int)
  | boolean (b : Bool)
  | null
  deriving DecidableEq, Repr

/-- A JS value as the checkpoint logic sees it: a primitive, or a reference
to a mutable heap object. -/
inductive JSVal
  | prim (p : JSPrim)
  | ref (a : Nat)
  deriving DecidableEq, Repr

/-- A JS object: an ordered field map. -/
structure JSObject where
  fields : List (String × JSVal)
  deriving DecidableEq, Repr

/-- The mutable JS heap: objects keyed by address; `next` is the lowest
address never yet allocated. -/
structure Heap where
  objects : List (Nat × JSObject)
  next : Nat
  deriving DecidableEq, Repr

/-- A heap is well formed when every allocated address is below `next`. -/
def heapWF (H : Heap) : Bool :=
  H.objects.all fun e => decide (e.1 < H.next)

/-- Read a field path `v.k₁.k₂…` starting from a value. -/
def readPath (H : Heap) (v : JSVal) : List String → Option JSVal
  | [] => some v
  | k :: ks =>
    match v with
    | JSVal.prim _ => none
    | JSVal.ref a =>
      match lookupKey H.objects a with
      | none => none
      | some obj =>
        match lookupKey obj.fields k with
        | none => none
        | some w => readPath H w ks

/-- Overwrite (or add) one field of an object. -/
def setField (obj : JSObject) (k : String) (v : JSVal) : JSObject :=
  ⟨mapSet obj.fields k v⟩

/-- Mutate the object at address `a`: set its field `k` to `v`; other
addresses are untouched. -/
def writeField (H : Heap) (a : Nat) (k : String) (v : JSVal) : Heap :=
  ⟨H.objects.map fun e => if e.1 = a then (e.1, setField e.2 k v) else e, H.next⟩

/-- Shift the references of a value into the fresh address range. -/
def renameVal (offset : Nat) : JSVal → JSVal
  | JSVal.prim p => JSVal.prim p
  | JSVal.ref a => JSVal.ref (a + offset)

/-- Shift all references of an object's fields. -/
def renameObj (offset : Nat) (obj : JSObject) : JSObject :=
  ⟨obj.fields.map fun e => (e.1, renameVal offset e.2)⟩

/-- The JS builtin `structuredClone`, on the explicit heap: every object is
copied to a fresh address (its address shifted by `H.next`), references
inside the copies are renamed accordingly, and the renamed root is
returned. The copies share no address with the pre-existing heap, which is
left in place. -/
def structuredClone (H : Heap) (root : JSVal) : Heap × JSVal :=
  let offset := H.next
  (⟨H.objects ++ H.objects.map (fun e => (e.1 + offset, renameObj offset e.2)),
    H.next + H.next⟩,
   renameVal offset root)

/-- A `Checkpoint` record; `state_snapshot` holds the deep-copied state. -/
structure Checkpoint where
  id : String
  timestamp : String
  operation : String
  state_snapshot : JSVal
  dependencies : List String
  deriving DecidableEq, Repr

/-- The mutable state of `EnhancedErrorHandler` that checkpointing touches:
the shared heap and the checkpoint map. -/
structure ErrorHandlerState where
  heap : Heap
  checkpoints : List (String × Checkpoint)
  deriving DecidableEq, Repr

/-- `EnhancedErrorHandler.createCheckpoint`: deep-copies `state` with
`structuredClone`, stores the checkpoint under a fresh id (`cpId` stands for
`generateCheckpointId()`, `ts` for the timestamp) and returns the id. -/
def createCheckpoint (st : ErrorHandlerState) (operationId : String) (state : JSVal)
    (cpId ts : String) : String × ErrorHandlerState :=
  let cloned := structuredClone st.heap state
  let checkpoint : Checkpoint :=
    { id := cpId
      timestamp := ts
      operation := operationId
      state_snapshot := cloned.2
      dependencies := [] }
  (cpId, ⟨cloned.1, mapSet st.checkpoints cpId checkpoint⟩)

/-- References at or above `offset`. -/
def highVal (offset : Nat) : JSVal → Prop
  | JSVal.prim _ => True
  | JSVal.ref a => offset ≤ a

/-! ## CollaborationManager: locks and coordination -/

/-- The `ResourceLock` record `acquireLocks` builds and passes to the
distributed lock service. -/
structure ResourceLock where
  resource_id : String
  lock_type : String
  holder : String
  acquired_at : String
  expires_at : String
  renewable : Bool
  deriving DecidableEq, Repr

/-- A `CollaborativeOperation` as far as coordination reads it: its id, its
source, and the declared target resources. -/
structure CollaborativeOperation where
  id : String
  source : String
  resources : List String
  deriving DecidableEq, Repr

/-- Observable events of one coordinated operation: a lock acquisition, a
successful event-bus publish, or a lock release. -/
inductive CoordEvent
  | acquire (resourceId : String)
  | publish (eventType : String)
  | release (resourceId : String)
  deriving DecidableEq, Repr

/-- `CollaborationManager.acquireLocks`: iterates over the declared resources
in the order given, building an exclusive, renewable lock request for each
and asking the distributed lock service to grant it. The
`DistributedLockManager` class has no definition in the source; its
`acquire` is modelled as granting the requested lock. `systemId` stands for
`this.getSystemId()`, and `now`/`expiry` for the two timestamps. -/
def acquireLocks (resources : List String) (systemId now expiry : String) :
    List ResourceLock :=
  resources.map fun resource =>
    { resource_id := resource
      lock_type := "exclusive"
      holder := systemId
      acquired_at := now
      expires_at := expiry
      renewable := true }

/-- `CollaborationManager.releaseLocks`: release each held lock, in order;
the external `release` calls are recorded as trace events. -/
def releaseLocks (locks : List ResourceLock) : List CoordEvent :=
  locks.map fun lock => CoordEvent.release lock.resource_id

/-- `CollaborationManager.coordinateOperation`: acquire the locks for the
declared resources, then inside `try`: publish `operation_started`, execute
the operation, publish `operation_completed` and return the result; the
`finally` block releases every acquired lock whatever the try block's
outcome. The event-bus publishes and the execution are external effects
whose outcomes are the parameters `pubStart`, `exec` and `pubComplete`; the
returned trace records acquisitions, successful publishes and releases in
order. -/
def coordinateOperation {ε ρ : Type} (operation : CollaborativeOperation)
    (systemId now expiry : String)
    (pubStart : Except ε Unit) (exec : Except ε ρ) (pubComplete : Except ε Unit) :
    List CoordEvent × Except ε ρ :=
  let locks := acquireLocks operation.resources systemId now expiry
  let body : List CoordEvent × Except ε ρ :=
    match pubStart with
    | Except.error e => ([], Except.error e)
    | Except.ok _ =>
      match exec with
      | Except.error e => ([CoordEvent.publish "operation_started"], Except.error e)
      | Except.ok result =>
        match pubComplete with
        | Except.error e => ([CoordEvent.publish "operation_started"], Except.error e)
        | Except.ok _ =>
          ([CoordEvent.publish "operation_started",
            CoordEvent.publish "operation_completed"], Except.ok result)
  ((locks.map fun lock => CoordEvent.acquire lock.resource_id) ++ body.1
     ++ releaseLocks locks,
   body.2)

/-! ## Lemmas on association lists -/

theorem lookupKey_mapSet {κ α : Type} [DecidableEq κ] (l : List (κ × α)) (k : κ) (v : α) :
    lookupKey (mapSet l k v) k = some v := by
  induction l with
  | nil => simp [mapSet, lookupKey]
  | cons e rest ih =>
    by_cases h : e.1 = k
    · simp [mapSet, lookupKey, h]
    · simp [mapSet, lookupKey, h, ih]

theorem lookupKey_eq_none {κ α : Type} [DecidableEq κ] (l : List (κ × α)) (k : κ)
    (h : ∀ e ∈ l, e.1 ≠ k) : lookupKey l k = none := by
  induction l with
  | nil => rfl
  | cons e rest ih =>
    rw [lookupKey, if_neg (h e (by simp))]
    exact ih fun e' he' => h e' (by simp [he'])

theorem lookupKey_append_of_left_none {κ α : Type} [DecidableEq κ]
    (l₁ l₂ : List (κ × α)) (k : κ) (h : lookupKey l₁ k = none) :
    lookupKey (l₁ ++ l₂) k = lookupKey l₂ k := by
  induction l₁ with
  | nil => rfl
  | cons e rest ih =>
    rw [lookupKey] at h
    by_cases he : e.1 = k
    · rw [if_pos he] at h
      exact absurd h (by simp)
    · rw [if_neg he] at h
      rw [List.cons_append, lookupKey, if_neg he]
      exact ih h

theorem lookupKey_map_val {κ α β : Type} [DecidableEq κ] (l : List (κ × α))
    (f : α → β) (k : κ) :
    lookupKey (l.map fun e => (e.1, f e.2)) k = (lookupKey l k).map f := by
  induction l with
  | nil => rfl
  | cons e rest ih =>
    by_cases he : e.1 = k
    · simp [lookupKey, he]
    · simp [lookupKey, he, ih]

theorem lookupKey_shift (l : List (Nat × JSObject)) (offset a : Nat)
    (f : JSObject → JSObject) :
    lookupKey (l.map fun e => (e.1 + offset, f e.2)) (a + offset) =
      (lookupKey l a).map f := by
  induction l with
  | nil => rfl
  | cons e rest ih =>
    by_cases he : e.1 = a
    · simp [lookupKey, he]
    · have hne : ¬ e.1 + offset = a + offset := by omega
      simp [lookupKey, he, hne, ih]

theorem lookupKey_map_ite {α : Type} (l : List (Nat × α)) (a b : Nat) (f : α → α)
    (h : b ≠ a) :
    lookupKey (l.map fun e => if e.1 = a then (e.1, f e.2) else e) b =
      lookupKey l b := by
  induction l with
  | nil => rfl
  | cons e rest ih =>
    by_cases he : e.1 = a
    · have hne : ¬ e.1 = b := by rw [he]; exact fun hb => h hb.symm
      simp [lookupKey, he, hne, ih, Ne.symm h]
    · by_cases hb : e.1 = b
      · simp [lookupKey, he, hb, h]
      · simp [lookupKey, he, hb, ih]

/-! ## Authentication: C1, C2, C8, C10 -/

/-- C1: a request with no signature authenticates with the degraded result —
`authenticated = true`, permissions exactly `["read:public"]`,
`riskLevel = medium`, `requiresAudit = true` — raising no error and leaving
the security state (in particular the audit log) unchanged. -/
theorem unsigned_request_degrades
    (verify : CryptographicSignature → EnhancedMessage → Bool)
    (st : SecurityState) (message : EnhancedMessage) (now : String)
    (h : message.signature = none) :
    authenticateRequest verify st message now =
      (Except.ok
        { authenticated := true
          permissions := ["read:public"]
          riskLevel := RiskLevel.medium
          requiresAudit := true }, st) := by
  simp [authenticateRequest, h]

theorem unsigned_request_degrades_witness :
    authenticateRequest (fun _ _ => false) ⟨[], []⟩ ⟨some "tools/list", none, none⟩ "t0" =
      (Except.ok
        { authenticated := true
          permissions := ["read:public"]
          riskLevel := RiskLevel.medium
          requiresAudit := true }, ⟨[], []⟩) :=
  unsigned_request_degrades _ _ _ _ rfl

/-- C2: a request whose signature is present but fails verification makes
`authenticateRequest` throw (`Invalid signature`) and append exactly one
`authentication_failed` entry to the audit log, leaving the log otherwise
unchanged (and the permission map untouched). -/
theorem invalid_signature_audited
    (verify : CryptographicSignature → EnhancedMessage → Bool)
    (st : SecurityState) (message : EnhancedMessage) (now : String)
    (s : CryptographicSignature)
    (hs : message.signature = some s) (hv : verify s message = false) :
    authenticateRequest verify st message now =
      (Except.error "Invalid signature",
       { st with auditLog := st.auditLog ++
           [{ timestamp := now
              event := "authentication_failed"
              details := "Invalid signature" }] }) := by
  simp [authenticateRequest, hs, hv]

theorem invalid_signature_audited_witness :
    authenticateRequest (fun _ _ => false) ⟨[], [⟨"t0", "boot", "ok"⟩]⟩
      ⟨some "tools/call", some ⟨"EdDSA", "pk", "sig"⟩, none⟩ "t1" =
      (Except.error "Invalid signature",
       ⟨[], [⟨"t0", "boot", "ok"⟩,
             ⟨"t1", "authentication_failed", "Invalid signature"⟩]⟩) :=
  invalid_signature_audited _ _ _ _ ⟨"EdDSA", "pk", "sig"⟩ rfl rfl

theorem grantsAction_iff_any (perms : List Permission) (t : ActionType) :
    grantsAction perms t ↔
      (perms.any fun p => p.actions.any fun a => a.type == t) = true := by
  simp [grantsAction, List.any_eq_true]

/-- The risk-level policy, characterized against the permission list: any
`execute` action ⇒ `critical`; else any `write` or `delete` action ⇒ `high`;
else `medium`. -/
theorem calculateRiskLevel_policy (perms : List Permission) :
    calculateRiskLevel perms =
      if grantsAction perms ActionType.execute then RiskLevel.critical
      else if grantsAction perms ActionType.write ∨ grantsAction perms ActionType.delete then
        RiskLevel.high
      else RiskLevel.medium := by
  by_cases h1 : grantsAction perms ActionType.execute
  · have b1 : (perms.any fun p => p.actions.any fun a => a.type == ActionType.execute) = true :=
      (grantsAction_iff_any _ _).mp h1
    simp [calculateRiskLevel, b1, h1]
  · have b1 : (perms.any fun p => p.actions.any fun a => a.type == ActionType.execute) = false := by
      rw [Bool.eq_false_iff]
      intro hb
      exact h1 ((grantsAction_iff_any _ _).mpr hb)
    by_cases h2 : grantsAction perms ActionType.write ∨ grantsAction perms ActionType.delete
    · have b2 : (perms.any fun p => p.actions.any fun a =>
          a.type == ActionType.write || a.type == ActionType.delete) = true := by
        simp only [List.any_eq_true, Bool.or_eq_true, beq_iff_eq]
        unfold grantsAction at h2
        rcases h2 with ⟨p, hp, a, ha, hat⟩ | ⟨p, hp, a, ha, hat⟩
        · exact ⟨p, hp, a, ha, Or.inl hat⟩
        · exact ⟨p, hp, a, ha, Or.inr hat⟩
      simp [calculateRiskLevel, b1, b2, h1, h2]
    · have b2 : (perms.any fun p => p.actions.any fun a =>
          a.type == ActionType.write || a.type == ActionType.delete) = false := by
        rw [Bool.eq_false_iff]
        intro hb
        simp only [List.any_eq_true, Bool.or_eq_true, beq_iff_eq] at hb
        obtain ⟨p, hp, a, ha, hat⟩ := hb
        unfold grantsAction at h2
        rcases hat with h | h
        · exact h2 (Or.inl ⟨p, hp, a, ha, h⟩)
        · exact h2 (Or.inr ⟨p, hp, a, ha, h⟩)
      simp [calculateRiskLevel, b1, b2, h1, h2]

/-- C8: on a successfully verified request, the risk level of the returned
result is `critical` when the resolved permissions contain an `execute`
action, else `high` when they contain a `write` or `delete` action, else
`medium`. -/
theorem verified_request_riskLevel
    (verify : CryptographicSignature → EnhancedMessage → Bool)
    (st : SecurityState) (message : EnhancedMessage) (now : String)
    (s : CryptographicSignature)
    (hs : message.signature = some s) (hv : verify s message = true) :
    ∃ r, (authenticateRequest verify st message now).1 = Except.ok r ∧
      (let perms := getPermissions st (message.context.bind OperationContext.userId)
       r.riskLevel =
        if grantsAction perms ActionType.execute then RiskLevel.critical
        else if grantsAction perms ActionType.write ∨ grantsAction perms ActionType.delete then
          RiskLevel.high
        else RiskLevel.medium) := by
  have h : (authenticateRequest verify st message now).1 = Except.ok
      { authenticated := true
        permissions := (getPermissions st
          (message.context.bind OperationContext.userId)).map Permission.resource
        riskLevel := calculateRiskLevel (getPermissions st
          (message.context.bind OperationContext.userId))
        requiresAudit := (getPermissions st
          (message.context.bind OperationContext.userId)).any Permission.auditRequired } := by
    simp [authenticateRequest, hs, hv]
  exact ⟨_, h, calculateRiskLevel_policy _⟩

theorem verified_request_riskLevel_witness :
    ∃ r, (authenticateRequest (fun _ _ => true)
        ⟨[("alice", [⟨"files", [⟨ActionType.execute⟩], true⟩])], []⟩
        ⟨some "tools/call", some ⟨"EdDSA", "pk", "sig"⟩, some ⟨some "alice"⟩⟩ "t0").1 =
        Except.ok r ∧
      (let perms := getPermissions
          ⟨[("alice", [⟨"files", [⟨ActionType.execute⟩], true⟩])], []⟩ (some "alice")
       r.riskLevel =
        if grantsAction perms ActionType.execute then RiskLevel.critical
        else if grantsAction perms ActionType.write ∨ grantsAction perms ActionType.delete then
          RiskLevel.high
        else RiskLevel.medium) :=
  verified_request_riskLevel _ _ _ _ ⟨"EdDSA", "pk", "sig"⟩ rfl rfl

/-- C10: `authenticateRequest` never returns a result with
`authenticated = false` — whenever it returns (rather than throws), the
returned result has `authenticated = true`, for every message, signed or
unsigned. -/
theorem authenticateRequest_ok_means_authenticated
    (verify : CryptographicSignature → EnhancedMessage → Bool)
    (st : SecurityState) (message : EnhancedMessage) (now : String)
    (r : AuthenticationResult) (st' : SecurityState)
    (h : authenticateRequest verify st message now = (Except.ok r, st')) :
    r.authenticated = true := by
  cases hs : message.signature with
  | none =>
    simp [authenticateRequest, hs] at h
    rw [← h.1]
  | some s =>
    by_cases hv : verify s message
    · simp [authenticateRequest, hs, hv] at h
      rw [← h.1]
    · simp [authenticateRequest, hs, hv] at h

theorem authenticateRequest_ok_means_authenticated_witness :
    ({ authenticated := true, permissions := ["read:public"],
       riskLevel := RiskLevel.medium,
       requiresAudit := true } : AuthenticationResult).authenticated = true :=
  authenticateRequest_ok_means_authenticated (fun _ _ => false) ⟨[], []⟩
    ⟨none, none, none⟩ "t0" _ ⟨[], []⟩ rfl

/-! ## Sandbox registry: C6, C9 -/

/-- C6 fails on the code: `createSandbox` performs no duplicate-id check.
Registering a second configuration under the already-registered id `s1`
succeeds (no `ConflictError`) and overwrites the previously registered
sandbox, so the registered sandbox for that id is changed. -/
theorem createSandbox_duplicate_overwrites_cex :
    createSandbox [("s1", ⟨⟨"s1", "container"⟩⟩)] ⟨"s1", "vm"⟩ =
      Except.ok ("s1", [("s1", ⟨⟨"s1", "vm"⟩⟩)]) ∧
    lookupKey [("s1", (⟨⟨"s1", "vm"⟩⟩ : SandboxEnvironment))] "s1" ≠
      some (⟨⟨"s1", "container"⟩⟩ : SandboxEnvironment) := by
  constructor
  · simp [createSandbox, mapSet]
  · simp [lookupKey]

/-- C6 amended: for every configuration whose id is already registered,
`createSandbox` succeeds without error, returns the id, and replaces the
existing registration for that id with a sandbox built from the new
configuration (rather than failing with a `ConflictError`). -/
theorem createSandbox_duplicate_replaces
    (sandboxes : List (String × SandboxEnvironment))
    (config : SandboxConfiguration) (env : SandboxEnvironment)
    (_h : lookupKey sandboxes config.id = some env) :
    ∃ sandboxes', createSandbox sandboxes config = Except.ok (config.id, sandboxes') ∧
      lookupKey sandboxes' config.id = some { config := config } := by
  exact ⟨_, rfl, lookupKey_mapSet _ _ _⟩

theorem createSandbox_duplicate_replaces_witness :
    ∃ sandboxes', createSandbox [("s1", ⟨⟨"s1", "container"⟩⟩)]
        (⟨"s1", "vm"⟩ : SandboxConfiguration) = Except.ok ("s1", sandboxes') ∧
      lookupKey sandboxes' "s1" =
        some { config := (⟨"s1", "vm"⟩ : SandboxConfiguration) } :=
  createSandbox_duplicate_replaces _ _ ⟨⟨"s1", "container"⟩⟩ rfl

/-- C9: `destroySandbox` is idempotent — on any registry and any id it
returns without error; destroying the resulting registry again with the same
id is a no-op returning the same registry; and when the id was never
registered the registry is returned unchanged. -/
theorem destroySandbox_idempotent
    (sandboxes : List (String × SandboxEnvironment)) (sandboxId : String) :
    ∃ sandboxes', destroySandbox sandboxes sandboxId = Except.ok sandboxes' ∧
      destroySandbox sandboxes' sandboxId = Except.ok sandboxes' ∧
      ((∀ e ∈ sandboxes, e.1 ≠ sandboxId) → sandboxes' = sandboxes) := by
  refine ⟨sandboxes.filter fun e => e.1 != sandboxId, rfl, ?_, ?_⟩
  · have : ((sandboxes.filter fun e => e.1 != sandboxId).filter
        fun e => e.1 != sandboxId) = sandboxes.filter fun e => e.1 != sandboxId := by
      rw [List.filter_eq_self]
      intro a ha
      exact (List.mem_filter.mp ha).2
    simp [destroySandbox, this]
  · intro h
    rw [List.filter_eq_self]
    intro a ha
    simpa using h a ha

theorem destroySandbox_idempotent_witness :
    ∃ sandboxes', destroySandbox [("s1", ⟨⟨"s1", "container"⟩⟩)] "s2" =
        Except.ok sandboxes' ∧
      destroySandbox sandboxes' "s2" = Except.ok sandboxes' ∧
      ((∀ e ∈ [("s1", (⟨⟨"s1", "container"⟩⟩ : SandboxEnvironment))], e.1 ≠ "s2") →
        sandboxes' = [("s1", ⟨⟨"s1", "container"⟩⟩)]) :=
  destroySandbox_idempotent _ _

/-! ## Retry with backoff: C4 -/

theorem jsOrDefault_pos (x : Option Nat) (d : Nat) (hd : 0 < d) :
    0 < jsOrDefault x d := by
  cases x with
  | none => simpa [jsOrDefault] using hd
  | some n =>
    by_cases h : n = 0
    · simpa [jsOrDefault, h] using hd
    · simpa [jsOrDefault, h] using Nat.pos_of_ne_zero h

theorem retryLoop_all_fail {ε : Type} (operation : Nat → Except ε Unit)
    (baseDelay : Nat) (backoffStrategy : String) (maxAttempts attempt : Nat)
    (hm : attempt ≤ maxAttempts)
    (hfail : ∀ i, attempt ≤ i → i ≤ maxAttempts → ∃ e, operation i = Except.error e) :
    callsOf (retryLoop operation baseDelay backoffStrategy maxAttempts attempt).1 =
      List.range' attempt (maxAttempts + 1 - attempt) ∧
    sleepsOf (retryLoop operation baseDelay backoffStrategy maxAttempts attempt).1 =
      (List.range' attempt (maxAttempts - attempt)).map
        (fun i => calculateBackoffDelay i baseDelay backoffStrategy) ∧
    ∃ e, operation maxAttempts = Except.error e ∧
      (retryLoop operation baseDelay backoffStrategy maxAttempts attempt).2 =
        Except.error e := by
  obtain ⟨n, hn⟩ : ∃ n, maxAttempts - attempt = n := ⟨_, rfl⟩
  induction n generalizing attempt with
  | zero =>
    have heq : attempt = maxAttempts := by omega
    obtain ⟨e, he⟩ := hfail attempt le_rfl hm
    rw [retryLoop]
    rw [dif_neg (by omega)]
    rw [he]
    simp only [heq, dif_pos rfl]
    subst heq
    refine ⟨?_, ?_, e, he, rfl⟩
    · have : attempt + 1 - attempt = 1 := by omega
      simp [callsOf, this]
    · have : attempt - attempt = 0 := by omega
      simp [sleepsOf, this]
  | succ n ih =>
    have hlt : attempt < maxAttempts := by omega
    obtain ⟨e, he⟩ := hfail attempt le_rfl hm
    have hne1 : ¬ maxAttempts < attempt := by omega
    have hne2 : ¬ attempt = maxAttempts := by omega
    rw [retryLoop]
    simp only [dif_neg hne1, he, dif_neg hne2]
    have ihh := ih (attempt + 1) (by omega)
      (fun i h1 h2 => hfail i (by omega) h2) (by omega)
    simp only [callsOf, sleepsOf]
    refine ⟨?_, ?_, ?_⟩
    · rw [ihh.1]
      have h1 : maxAttempts + 1 - attempt = (maxAttempts + 1 - (attempt + 1)) + 1 := by omega
      rw [h1, List.range'_succ]
    · rw [ihh.2.1]
      have h2 : maxAttempts - attempt = (maxAttempts - (attempt + 1)) + 1 := by omega
      rw [h2, List.range'_succ]
      simp
    · exact ihh.2.2

theorem retryLoop_first_success {ε : Type} (operation : Nat → Except ε Unit)
    (baseDelay : Nat) (backoffStrategy : String) (maxAttempts attempt k : Nat)
    (hak : attempt ≤ k) (hkm : k ≤ maxAttempts)
    (hfail : ∀ i, attempt ≤ i → i < k → ∃ e, operation i = Except.error e)
    (hsucc : operation k = Except.ok ()) :
    callsOf (retryLoop operation baseDelay backoffStrategy maxAttempts attempt).1 =
      List.range' attempt (k + 1 - attempt) ∧
    (retryLoop operation baseDelay backoffStrategy maxAttempts attempt).2 =
      Except.ok true := by
  obtain ⟨n, hn⟩ : ∃ n, k - attempt = n := ⟨_, rfl⟩
  induction n generalizing attempt with
  | zero =>
    have heq : attempt = k := by omega
    subst heq
    rw [retryLoop]
    rw [dif_neg (by omega)]
    rw [hsucc]
    have : attempt + 1 - attempt = 1 := by omega
    simp [callsOf, this]
  | succ n ih =>
    have hlt : attempt < k := by omega
    obtain ⟨e, he⟩ := hfail attempt le_rfl hlt
    have hne1 : ¬ maxAttempts < attempt := by omega
    have hne2 : ¬ attempt = maxAttempts := by omega
    rw [retryLoop]
    simp only [dif_neg hne1, he, dif_neg hne2]
    have ihh := ih (attempt + 1) (by omega)
      (fun i h1 h2 => hfail i (by omega) h2) (by omega)
    simp only [callsOf, sleepsOf]
    refine ⟨?_, ihh.2⟩
    rw [ihh.1]
    have h1 : k + 1 - attempt = (k + 1 - (attempt + 1)) + 1 := by omega
    rw [h1, List.range'_succ]

/-- C4: with strategy type `retry`, writing `M` for the effective
`maxAttempts` (default 3) and `B` for the effective `baseDelay`: when every
attempt fails, the operation is invoked exactly `M` times (attempts
`1, …, M` in order), the sleeps between consecutive attempts are
`B * 2 ^ (attempt - 1)` for the exponential strategy, `B * attempt` for the
linear one and the constant `B` otherwise, and the final attempt's error is
re-thrown rather than swallowed; when some attempt first succeeds at `k`,
the loop stops there and returns `true`. -/
theorem retry_strategy_spec {ε : Type} (strategy : RecoveryStrategy)
    (operation : Nat → Except ε Unit) (fallbackResult rollbackResult : Except ε Bool)
    (M B : Nat) (ht : strategy.type = "retry")
    (hM : jsOrDefault strategy.maxAttempts 3 = M)
    (hB : jsOrDefault strategy.baseDelay 1000 = B) :
    ((∀ i, 1 ≤ i → i ≤ M → ∃ e, operation i = Except.error e) →
      callsOf (attemptRecovery strategy operation fallbackResult rollbackResult).1 =
        List.range' 1 M ∧
      sleepsOf (attemptRecovery strategy operation fallbackResult rollbackResult).1 =
        (List.range' 1 (M - 1)).map (fun i =>
          if strategy.backoffStrategy = "exponential" then B * 2 ^ (i - 1)
          else if strategy.backoffStrategy = "linear" then B * i
          else B) ∧
      ∃ e, operation M = Except.error e ∧
        (attemptRecovery strategy operation fallbackResult rollbackResult).2 =
          Except.error e) ∧
    (∀ k, 1 ≤ k → k ≤ M →
      (∀ i, 1 ≤ i → i < k → ∃ e, operation i = Except.error e) →
      operation k = Except.ok () →
      callsOf (attemptRecovery strategy operation fallbackResult rollbackResult).1 =
        List.range' 1 k ∧
      (attemptRecovery strategy operation fallbackResult rollbackResult).2 =
        Except.ok true) := by
  have hMpos : 0 < M := hM ▸ jsOrDefault_pos _ _ (by omega)
  have hrun : attemptRecovery strategy operation fallbackResult rollbackResult =
      retryLoop operation B strategy.backoffStrategy M 1 := by
    simp only [attemptRecovery, ht, if_pos, retryWithBackoff, hM, hB]
  constructor
  · intro hfail
    have h := retryLoop_all_fail operation B strategy.backoffStrategy M 1 hMpos
      (fun i h1 h2 => hfail i h1 h2)
    rw [hrun]
    refine ⟨?_, ?_, ?_⟩
    · rw [h.1]
      have hM1 : M + 1 - 1 = M := by omega
      rw [hM1]
    · rw [h.2.1]
      apply List.map_congr_left
      intro i _
      rfl
    · exact h.2.2
  · intro k hk1 hkM hfail hsucc
    have h := retryLoop_first_success operation B strategy.backoffStrategy M 1 k
      hk1 hkM (fun i h1 h2 => hfail i h1 h2) hsucc
    rw [hrun]
    refine ⟨?_, h.2⟩
    rw [h.1]
    have hk : k + 1 - 1 = k := by omega
    rw [hk]

theorem retry_strategy_spec_witness :
    callsOf (attemptRecovery ⟨"retry", some 3, some 100, "exponential"⟩
        (fun _ => (Except.error "boom" : Except String Unit))
        (Except.ok false) (Except.ok false)).1 = [1, 2, 3] ∧
    sleepsOf (attemptRecovery ⟨"retry", some 3, some 100, "exponential"⟩
        (fun _ => (Except.error "boom" : Except String Unit))
        (Except.ok false) (Except.ok false)).1 = [100, 200] ∧
    (attemptRecovery ⟨"retry", some 3, some 100, "exponential"⟩
        (fun _ => (Except.error "boom" : Except String Unit))
        (Except.ok false) (Except.ok false)).2 = Except.error "boom" := by
  have h := (retry_strategy_spec ⟨"retry", some 3, some 100, "exponential"⟩
      (fun _ => (Except.error "boom" : Except String Unit))
      (Except.ok false) (Except.ok false) 3 100 rfl rfl rfl).1
      (fun i _ _ => ⟨"boom", rfl⟩)
  obtain ⟨h1, h2, e, he, hres⟩ := h
  refine ⟨?_, ?_, ?_⟩
  · rw [h1]
    rfl
  · rw [h2]
    rfl
  · rw [hres]
    cases he
    rfl

/-! ## Checkpoint deep copy: C3 -/

theorem heapWF_bound (H : Heap) (hwf : heapWF H = true) :
    ∀ e ∈ H.objects, e.1 < H.next := by
  intro e he
  have h := List.all_eq_true.mp hwf e he
  simpa using h

theorem lookupKey_clone_high (H : Heap) (root : JSVal) (b : Nat)
    (hwf : heapWF H = true) :
    lookupKey (structuredClone H root).1.objects (b + H.next) =
      (lookupKey H.objects b).map (renameObj H.next) := by
  have hb := heapWF_bound H hwf
  have hnone : lookupKey H.objects (b + H.next) = none :=
    lookupKey_eq_none _ _ fun e he => by have := hb e he; omega
  show lookupKey (H.objects ++ H.objects.map fun e =>
      (e.1 + H.next, renameObj H.next e.2)) (b + H.next) = _
  rw [lookupKey_append_of_left_none _ _ _ hnone, lookupKey_shift]

/-- Reads from the cloned root mirror reads from the original root: along
every field path the clone yields exactly the original's value, renamed into
the fresh address range. This is the sense in which `structuredClone` is a
full deep copy. -/
theorem readPath_clone (H : Heap) (root : JSVal) (hwf : heapWF H = true) :
    ∀ (path : List String) (v : JSVal),
      readPath (structuredClone H root).1 (renameVal H.next v) path =
        (readPath H v path).map (renameVal H.next) := by
  intro path
  induction path with
  | nil => intro v; rfl
  | cons k ks ih =>
    intro v
    cases v with
    | prim p => rfl
    | ref a =>
      simp only [renameVal, readPath]
      rw [lookupKey_clone_high H root a hwf]
      cases hobj : lookupKey H.objects a with
      | none => rfl
      | some obj =>
        simp only [Option.map_some', renameObj]
        rw [lookupKey_map_val]
        cases hw : lookupKey obj.fields k with
        | none => rfl
        | some w => exact ih w

/-- Reads from a value whose references all point at or above `offset` are
insensitive to the part of the heap below `offset`, provided every object
reachable at or above `offset` again only references at or above it. -/
theorem readPath_agree (H₁ H₂ : Heap) (offset : Nat)
    (hagree : ∀ b, offset ≤ b → lookupKey H₂.objects b = lookupKey H₁.objects b)
    (hhigh : ∀ b, offset ≤ b → ∀ obj, lookupKey H₁.objects b = some obj →
      ∀ k w, lookupKey obj.fields k = some w → highVal offset w) :
    ∀ (path : List String) (v : JSVal), highVal offset v →
      readPath H₂ v path = readPath H₁ v path := by
  intro path
  induction path with
  | nil => intro v _; rfl
  | cons k ks ih =>
    intro v hv
    cases v with
    | prim p => rfl
    | ref a =>
      have ha : offset ≤ a := hv
      simp only [readPath]
      rw [hagree a ha]
      cases hobj : lookupKey H₁.objects a with
      | none => rfl
      | some obj =>
        cases hw : lookupKey obj.fields k with
        | none => simp only [hw]
        | some w =>
          simp only [hw]
          exact ih w (hhigh a ha obj hobj k w hw)

/-- C3: the checkpoint stored by `createCheckpoint` is a structurally
independent deep copy of the caller's state. On a well-formed heap, the
stored snapshot (i) reads back, along every field path, exactly the values
the original state had at checkpoint time (renamed into the fresh address
range), and (ii) is unaffected by any subsequent mutation of a
pre-existing heap address — in particular of anything reachable from the
caller's original `state`. -/
theorem createCheckpoint_snapshot_independent (st : ErrorHandlerState)
    (operationId : String) (state : JSVal) (cpId ts : String)
    (hwf : heapWF st.heap = true) :
    ∃ cp, lookupKey (createCheckpoint st operationId state cpId ts).2.checkpoints cpId =
        some cp ∧
      (∀ path, readPath (createCheckpoint st operationId state cpId ts).2.heap
          cp.state_snapshot path =
        (readPath st.heap state path).map (renameVal st.heap.next)) ∧
      (∀ a, a < st.heap.next → ∀ k v path,
        readPath (writeField (createCheckpoint st operationId state cpId ts).2.heap a k v)
            cp.state_snapshot path =
          readPath (createCheckpoint st operationId state cpId ts).2.heap
            cp.state_snapshot path) := by
  refine ⟨{ id := cpId, timestamp := ts, operation := operationId,
            state_snapshot := renameVal st.heap.next state, dependencies := [] },
          lookupKey_mapSet _ _ _, ?_, ?_⟩
  · intro path
    exact readPath_clone st.heap state hwf path state
  · intro a ha k v path
    refine readPath_agree (structuredClone st.heap state).1
      (writeField (structuredClone st.heap state).1 a k v) st.heap.next ?_ ?_ path
      (renameVal st.heap.next state) ?_
    · intro b hb
      simp only [writeField]
      exact lookupKey_map_ite _ a b (fun obj => setField obj k v) (by omega)
    · intro b hb obj hobj k' w hw
      obtain ⟨c, rfl⟩ : ∃ c, b = c + st.heap.next := ⟨b - st.heap.next, by omega⟩
      rw [lookupKey_clone_high st.heap state c hwf] at hobj
      cases ho : lookupKey st.heap.objects c with
      | none =>
        rw [ho] at hobj
        exact absurd hobj (by simp)
      | some o =>
        rw [ho] at hobj
        simp only [Option.map_some'] at hobj
        injection hobj with hobj
        subst hobj
        simp only [renameObj] at hw
        rw [lookupKey_map_val] at hw
        cases hwo : lookupKey o.fields k' with
        | none =>
          rw [hwo] at hw
          exact absurd hw (by simp)
        | some w0 =>
          rw [hwo] at hw
          simp only [Option.map_some'] at hw
          injection hw with hw
          subst hw
          cases w0 with
          | prim p => trivial
          | ref c0 => exact Nat.le_add_left _ _
    · cases state with
      | prim p => trivial
      | ref a0 => exact Nat.le_add_left _ _

theorem createCheckpoint_snapshot_independent_witness :
    ∃ cp, lookupKey (createCheckpoint
        ⟨⟨[(0, ⟨[("x", JSVal.prim (JSPrim.num 1))]⟩)], 1⟩, []⟩
        "op1" (JSVal.ref 0) "cp1" "t0").2.checkpoints "cp1" = some cp ∧
      (∀ path, readPath (createCheckpoint
          ⟨⟨[(0, ⟨[("x", JSVal.prim (JSPrim.num 1))]⟩)], 1⟩, []⟩
          "op1" (JSVal.ref 0) "cp1" "t0").2.heap cp.state_snapshot path =
        (readPath (⟨[(0, ⟨[("x", JSVal.prim (JSPrim.num 1))]⟩)], 1⟩ : Heap)
          (JSVal.ref 0) path).map (renameVal 1)) ∧
      (∀ a, a < 1 → ∀ k v path,
        readPath (writeField (createCheckpoint
            ⟨⟨[(0, ⟨[("x", JSVal.prim (JSPrim.num 1))]⟩)], 1⟩, []⟩
            "op1" (JSVal.ref 0) "cp1" "t0").2.heap a k v) cp.state_snapshot path =
          readPath (createCheckpoint
            ⟨⟨[(0, ⟨[("x", JSVal.prim (JSPrim.num 1))]⟩)], 1⟩, []⟩
            "op1" (JSVal.ref 0) "cp1" "t0").2.heap cp.state_snapshot path) :=
  createCheckpoint_snapshot_independent
    ⟨⟨[(0, ⟨[("x", JSVal.prim (JSPrim.num 1))]⟩)], 1⟩, []⟩
    "op1" (JSVal.ref 0) "cp1" "t0" (by decide)

/-! ## Coordination and locks: C5, C7 -/

theorem count_release_releaseLocks (locks : List ResourceLock) (r : String) :
    (releaseLocks locks).count (CoordEvent.release r) =
      (locks.map fun lock => CoordEvent.acquire lock.resource_id).count
        (CoordEvent.acquire r) := by
  induction locks with
  | nil => rfl
  | cons lock rest ih =>
    simp only [releaseLocks, List.map_cons, List.count_cons] at *
    rw [ih]
    congr 1
    simp [beq_iff_eq]

/-- C5: every lock acquired by `coordinateOperation` is released exactly
once on every outcome of the try block alike — successful completion, a
failed `operation_started` publish, a failed execution, and a failed
`operation_completed` publish: in the trace of any run, each resource has
exactly as many release events as acquire events. -/
theorem coordinateOperation_releases_all {ε ρ : Type}
    (operation : CollaborativeOperation) (systemId now expiry : String)
    (pubStart : Except ε Unit) (exec : Except ε ρ) (pubComplete : Except ε Unit)
    (r : String) :
    ((coordinateOperation operation systemId now expiry
        pubStart exec pubComplete).1).count (CoordEvent.release r) =
      ((coordinateOperation operation systemId now expiry
        pubStart exec pubComplete).1).count (CoordEvent.acquire r) := by
  have hbody : ∀ body : List CoordEvent × Except ε ρ,
      (∀ ev ∈ body.1, ∃ t, ev = CoordEvent.publish t) →
      ((acquireLocks operation.resources systemId now expiry).map
          (fun lock => CoordEvent.acquire lock.resource_id) ++ body.1
        ++ releaseLocks (acquireLocks operation.resources systemId now expiry)).count
          (CoordEvent.release r) =
      ((acquireLocks operation.resources systemId now expiry).map
          (fun lock => CoordEvent.acquire lock.resource_id) ++ body.1
        ++ releaseLocks (acquireLocks operation.resources systemId now expiry)).count
          (CoordEvent.acquire r) := by
    intro body hpub
    rw [List.count_append, List.count_append, List.count_append, List.count_append]
    have h1 : ((acquireLocks operation.resources systemId now expiry).map
        (fun lock => CoordEvent.acquire lock.resource_id)).count (CoordEvent.release r) = 0 := by
      rw [List.count_eq_zero]
      intro h
      simp only [List.mem_map] at h
      obtain ⟨lock, _, hl⟩ := h
      exact CoordEvent.noConfusion hl
    have h2 : (releaseLocks (acquireLocks operation.resources systemId now expiry)).count
        (CoordEvent.acquire r) = 0 := by
      rw [List.count_eq_zero]
      intro h
      simp only [releaseLocks, List.mem_map] at h
      obtain ⟨lock, _, hl⟩ := h
      exact CoordEvent.noConfusion hl
    have h3 : body.1.count (CoordEvent.release r) = 0 := by
      rw [List.count_eq_zero]
      intro h
      obtain ⟨t, ht⟩ := hpub _ h
      exact CoordEvent.noConfusion ht
    have h4 : body.1.count (CoordEvent.acquire r) = 0 := by
      rw [List.count_eq_zero]
      intro h
      obtain ⟨t, ht⟩ := hpub _ h
      exact CoordEvent.noConfusion ht
    rw [h1, h2, h3, h4, count_release_releaseLocks]
    omega
  cases pubStart with
  | error e => exact hbody ([], Except.error e) (by simp)
  | ok u =>
    cases exec with
    | error e =>
      exact hbody ([CoordEvent.publish "operation_started"], Except.error e)
        (by intro ev hev; simp at hev; exact ⟨_, hev⟩)
    | ok result =>
      cases pubComplete with
      | error e =>
        exact hbody ([CoordEvent.publish "operation_started"], Except.error e)
          (by intro ev hev; simp at hev; exact ⟨_, hev⟩)
      | ok v =>
        exact hbody ([CoordEvent.publish "operation_started",
            CoordEvent.publish "operation_completed"], Except.ok result)
          (by intro ev hev; simp at hev; rcases hev with h | h <;> exact ⟨_, h⟩)

/-- C7 fails on the code: `acquireLocks` iterates the declared resources in
declaration order and performs no sorting, so for the declaration order
`["b", "a"]` the locks are acquired as `b` first and `a` second — not in
the lexicographic order `["a", "b"]`. -/
theorem acquireLocks_order_cex :
    (acquireLocks ["b", "a"] "sys" "t0" "t5").map ResourceLock.resource_id =
      ["b", "a"] ∧
    (["b", "a"] : List String) ≠ ["a", "b"] := by
  refine ⟨rfl, ?_⟩
  decide

/-- C7 amended: the coordinator acquires one exclusive lock per declared
target resource, in exactly the order in which the resources were declared
(no reordering, lexicographic or otherwise, is performed). -/
theorem acquireLocks_declared_order (resources : List String)
    (systemId now expiry : String) :
    (acquireLocks resources systemId now expiry).map ResourceLock.resource_id =
      resources ∧
    ∀ lock ∈ acquireLocks resources systemId now expiry,
      lock.lock_type = "exclusive" := by
  constructor
  · induction resources with
    | nil => rfl
    | cons x rest ih => simpa [acquireLocks] using ih
  · intro lock hl
    simp only [acquireLocks, List.mem_map] at hl
    obtain ⟨res, _, rfl⟩ := hl
    rfl

end MCP2
